import Mathlib

/-!
Verification of the document tree builder (`cairosvg/parser.py`).

This file gives a shallow embedding, in Lean, of the data model and the
operations of the SVG parser module: attribute maps (Python dicts of
string attributes), the whitespace handler, the style-declaration
normalizers, the attribute cascade performed by `Node.__init__`, the
recursive node builder, and the `Tree` loader (`Tree.__new__` and
`Tree.__init__`).  Python strings are modelled as Lean `String`s (the
inputs of interest are ASCII; `str.lower()` is modelled by the
ASCII-only `Char.toLower`).  The regular expressions of the source are
translated into explicit character scanners whose behaviour matches the
Python `re` semantics on the constructs they use.

Set-like/map-like Python structures are modelled as association lists
preserving insertion order, mirroring `dict` semantics: assignment to an
existing key keeps its position, assignment to a fresh key appends.
-/

set_option maxRecDepth 10000

/-! ## Basic string helpers -/

/-- Python whitespace characters stripped by `str.strip()` and matched by
the regex class `\s` (ASCII range). -/
def isPySpace (c : Char) : Bool :=
  c = ' ' || c = '\t' || c = '\n' || c = '\r' || c = '\x0b' || c = '\x0c'

/-- Model of Python `str.strip()` on character lists. -/
def pyStripList (l : List Char) : List Char :=
  ((l.dropWhile isPySpace).reverse.dropWhile isPySpace).reverse

/-- Model of Python `str.strip()`. -/
def pyStrip (s : String) : String :=
  ⟨pyStripList s.data⟩

/-- Model of Python `str.lower()` for ASCII text, character by character. -/
def toLowerStr (s : String) : String :=
  ⟨s.data.map Char.toLower⟩

/-! ## Attribute maps

A `Node` is a `dict` of string attributes.  We model it as an
insertion-ordered association list. -/

/-- Attribute map: insertion-ordered list of `(name, value)` pairs. -/
abbrev AttrMap := List (String × String)

/-- Dict lookup: value of the first pair with the given key. -/
def getA : AttrMap → String → Option String
  | [], _ => none
  | p :: rest, k => if p.1 = k then some p.2 else getA rest k

/-- Does the map contain the key? -/
def hasKey : AttrMap → String → Bool
  | [], _ => false
  | p :: rest, k => p.1 == k || hasKey rest k

/-- Replace the value of every pair with the given key, in place. -/
def replaceVal : AttrMap → String → String → AttrMap
  | [], _, _ => []
  | p :: rest, k, v => (if p.1 = k then (k, v) else p) :: replaceVal rest k v

/-- Dict assignment `m[k] = v`: update in place when the key exists,
append otherwise (Python `dict` insertion-order semantics). -/
def setA (m : AttrMap) (k v : String) : AttrMap :=
  if hasKey m k then replaceVal m k v else m ++ [(k, v)]

/-- Dict deletion `del m[k]`. -/
def eraseA : AttrMap → String → AttrMap
  | [], _ => []
  | p :: rest, k => if p.1 = k then eraseA rest k else p :: eraseA rest k

theorem getA_append (m1 m2 : AttrMap) (k : String) :
    getA (m1 ++ m2) k = match getA m1 k with
      | some v => some v
      | none => getA m2 k := by
  induction m1 with
  | nil => simp [getA]
  | cons p rest ih =>
    by_cases h : p.1 = k
    · simp [getA, h]
    · simp [getA, h, ih]

theorem getA_replaceVal (m : AttrMap) (k v k' : String) (hne : k' ≠ k) :
    getA (replaceVal m k v) k' = getA m k' := by
  induction m with
  | nil => rfl
  | cons p rest ih =>
    simp only [replaceVal]
    by_cases h : p.1 = k
    · rw [if_pos h]
      show getA ((k, v) :: replaceVal rest k v) k' = getA (p :: rest) k'
      simp only [getA, show ¬(k = k') from fun hc => hne hc.symm, ite_false,
        show ¬(p.1 = k') from fun hc => hne (hc.symm.trans h), ite_false]
      exact ih
    · rw [if_neg h]
      show getA (p :: replaceVal rest k v) k' = getA (p :: rest) k'
      by_cases hp : p.1 = k'
      · simp [getA, hp]
      · simp only [getA, hp, ite_false]
        exact ih

theorem getA_replaceVal_self (m : AttrMap) (k v : String) (hk : hasKey m k = true) :
    getA (replaceVal m k v) k = some v := by
  induction m with
  | nil => simp [hasKey] at hk
  | cons p rest ih =>
    simp only [replaceVal]
    by_cases h : p.1 = k
    · rw [if_pos h]
      simp [getA]
    · rw [if_neg h]
      have hk' : hasKey rest k = true := by
        simp only [hasKey, Bool.or_eq_true, beq_iff_eq] at hk
        exact hk.resolve_left h
      simp only [getA, h, ite_false]
      exact ih hk'

theorem getA_none_of_not_hasKey (m : AttrMap) (k : String)
    (h : hasKey m k = false) : getA m k = none := by
  induction m with
  | nil => rfl
  | cons p rest ih =>
    simp only [hasKey, Bool.or_eq_false_iff, beq_eq_false_iff_ne, ne_eq] at h
    simp only [getA, h.1, ite_false]
    exact ih h.2

theorem getA_setA (m : AttrMap) (k v k' : String) :
    getA (setA m k v) k' = if k' = k then some v else getA m k' := by
  by_cases hk : hasKey m k = true
  · rw [setA, if_pos hk]
    by_cases h : k' = k
    · subst h; simp [getA_replaceVal_self m k' v hk]
    · simp [getA_replaceVal m k v k' h, h]
  · rw [setA, if_neg hk, getA_append]
    have hnone := getA_none_of_not_hasKey m k (by simpa using hk)
    by_cases h : k' = k
    · subst h; simp [hnone, getA]
    · simp only [h, ite_false]
      cases hg : getA m k' with
      | some w => simp
      | none => simp [getA, show ¬ (k = k') from fun hc => h hc.symm]

theorem getA_eraseA (m : AttrMap) (k k' : String) :
    getA (eraseA m k) k' = if k' = k then none else getA m k' := by
  induction m with
  | nil => simp [eraseA, getA]
  | cons p rest ih =>
    simp only [eraseA]
    by_cases h : p.1 = k
    · rw [if_pos h, ih]
      by_cases h' : k' = k
      · simp [h']
      · simp only [h', ite_false, getA,
          show ¬ p.1 = k' from fun hc => h' (hc.symm.trans h), ite_false]
    · rw [if_neg h]
      show getA (p :: eraseA rest k) k' = _
      by_cases hp : p.1 = k'
      · have hkk : ¬ k' = k := fun hc => h (hp.trans hc)
        simp [getA, hp, hkk]
      · simp only [getA, hp, ite_false, ih]

/-! ## Whitespace handling (`handle_white_spaces`, parser.py lines 70-83)

The two regex substitutions are translated to character operations:
`re.sub('[\n\r\t]', ' ', s)` maps each of the three characters to a
space; `re.sub('[\n\r]', '', s)` removes them; `re.sub('\t', ' ', s)`
maps tabs to spaces; `re.sub(' +', ' ', s)` collapses every maximal run
of spaces to a single space. -/

/-- Collapse every maximal run of spaces to one space
(model of `re.sub(' +', ' ', string)`): a space immediately followed by
another space is dropped, so each run keeps exactly its last space. -/
def collapseSpaces : List Char → List Char
  | [] => []
  | [c] => [c]
  | a :: b :: rest =>
    if a = ' ' ∧ b = ' ' then collapseSpaces (b :: rest)
    else a :: collapseSpaces (b :: rest)

/-- Substitution applied in `preserve` mode: newline, carriage return and
tab each become one space. -/
def preserveChar (c : Char) : Char :=
  if c = '\n' || c = '\r' || c = '\t' then ' ' else c

/-- Model of `handle_white_spaces(string, preserve)`. -/
def handle_white_spaces (s : String) (preserve : Bool) : String :=
  if s = "" then ""
  else if preserve then ⟨s.data.map preserveChar⟩
  else
    let s1 := s.data.filter (fun c => !(c = '\n' || c = '\r'))
    let s2 := s1.map (fun c => if c = '\t' then ' ' else c)
    ⟨collapseSpaces s2⟩

/-- No two adjacent spaces occur in the list. -/
def noDoubleSpace : List Char → Bool
  | [] => true
  | [_] => true
  | a :: b :: rest => !(a = ' ' && b = ' ') && noDoubleSpace (b :: rest)

theorem collapseSpaces_cons_ne (b : Char) (rest : List Char) (hb : ¬ b = ' ') :
    collapseSpaces (b :: rest) = b :: collapseSpaces rest := by
  cases rest with
  | nil => rfl
  | cons c tl =>
    rw [collapseSpaces, if_neg (fun hc => hb hc.1)]

theorem noDoubleSpace_collapseSpaces (l : List Char) :
    noDoubleSpace (collapseSpaces l) = true := by
  induction l with
  | nil => rfl
  | cons a rest ih =>
    cases rest with
    | nil => rfl
    | cons b tl =>
      by_cases h : a = ' ' ∧ b = ' '
      · rw [collapseSpaces, if_pos h]
        exact ih
      · rw [collapseSpaces, if_neg h]
        by_cases ha : a = ' '
        · have hb : ¬ b = ' ' := fun hb => h ⟨ha, hb⟩
          rw [collapseSpaces_cons_ne b tl hb]
          rw [collapseSpaces_cons_ne b tl hb] at ih
          cases htl : collapseSpaces tl with
          | nil => simp [noDoubleSpace, hb]
          | cons e etl =>
            rw [htl] at ih
            simp only [noDoubleSpace, Bool.and_eq_true, Bool.not_eq_true'] at ih ⊢
            refine ⟨by simp [hb], ih⟩
        · cases hc : collapseSpaces (b :: tl) with
          | nil => simp [noDoubleSpace]
          | cons e etl =>
            rw [hc] at ih
            simp only [noDoubleSpace, Bool.and_eq_true, Bool.not_eq_true'] at ih ⊢
            refine ⟨by simp [ha], ih⟩

theorem collapseSpaces_mem (l : List Char) (c : Char) (hc : c ∈ collapseSpaces l) :
    c ∈ l := by
  induction l with
  | nil => simp [collapseSpaces] at hc
  | cons a rest ih =>
    cases rest with
    | nil => simpa [collapseSpaces] using hc
    | cons b tl =>
      by_cases h : a = ' ' ∧ b = ' '
      · rw [collapseSpaces, if_pos h] at hc
        exact List.mem_cons_of_mem a (ih hc)
      · rw [collapseSpaces, if_neg h] at hc
        rcases List.mem_cons.mp hc with h1 | h1
        · exact h1 ▸ List.mem_cons_self a _
        · exact List.mem_cons_of_mem a (ih h1)

/-- C4: in `preserve` mode `handle_white_spaces` replaces each newline,
carriage return and tab by exactly one space, character for character
(so no collapsing can happen); in default mode it removes newlines and
carriage returns, maps tabs to spaces and collapses space runs, so its
output never contains a newline, carriage return, tab or two adjacent
spaces; the two examples of the specification evaluate as claimed:
default mode sends "a\n\tb   c" to "a b c" and preserve mode sends
"a\n\tb" to "a  b". -/
theorem c4_handle_white_spaces :
    (∀ s : String, (handle_white_spaces s true).data = s.data.map preserveChar) ∧
    (∀ s : String, noDoubleSpace (handle_white_spaces s false).data = true ∧
      ∀ c ∈ (handle_white_spaces s false).data, c ≠ '\n' ∧ c ≠ '\r' ∧ c ≠ '\t') ∧
    handle_white_spaces "a\n\tb   c" false = "a b c" ∧
    handle_white_spaces "a\n\tb" true = "a  b" := by
  refine ⟨?_, ?_, by decide, by decide⟩
  · intro s
    by_cases hs : s = ""
    · subst hs; rfl
    · simp [handle_white_spaces, hs]
  · intro s
    by_cases hs : s = ""
    · subst hs
      refine ⟨rfl, ?_⟩
      intro c hc
      simp [handle_white_spaces] at hc
    · constructor
      · simp only [handle_white_spaces, hs, ite_false, Bool.false_eq_true]
        exact noDoubleSpace_collapseSpaces _
      · intro c hc
        simp only [handle_white_spaces, hs, ite_false, Bool.false_eq_true] at hc
        have h2 := collapseSpaces_mem _ _ hc
        simp only [List.mem_map, List.mem_filter] at h2
        obtain ⟨d, ⟨hd1, hd2⟩, hd3⟩ := h2
        simp only [Bool.not_eq_true', Bool.or_eq_false_iff, decide_eq_false_iff_not] at hd2
        by_cases hdt : d = '\t'
        · rw [if_pos hdt] at hd3
          subst hd3
          refine ⟨by decide, by decide, by decide⟩
        · rw [if_neg hdt] at hd3
          subst hd3
          exact ⟨hd2.1, hd2.2, hdt⟩

/-! ## Style declaration normalization (parser.py lines 86-165 and 420-435)

`normalize_url_style_declaration` is driven by a regex that splits the
value into a lazily-matched non-URL part (group 1, lowercased) and a
`url(...)` functional notation (left untouched), repeated over the whole
string by `finditer`; the `$` alternative lowercases a trailing segment
with no URL.  The scanner below reproduces the regex semantics: `.`
does not cross a newline, `$` matches at the end of the string or just
before a final newline, the three body alternatives (double-quoted,
single-quoted, unquoted) are tried in order with backtracking, and a
quote or closing parenthesis can only be crossed by the `\\.` escape
branch, i.e. when it is immediately preceded by a backslash. -/

def bslashChar : Char := '\\'

def dquoteChar : Char := Char.ofNat 34

def squoteChar : Char := Char.ofNat 39

/-- Model of `normalize_noop_style_declaration` (a value kept verbatim). -/
def normalize_noop_style_declaration (value : String) : String := value

/-- First position at or after `i` whose character is not regex whitespace
(the end of a `\s*` match starting at `i`). -/
def skipWs (l : List Char) (i : Nat) : Nat :=
  i + ((l.drop i).takeWhile isPySpace).length

/-- Lowercase every character of a segment. -/
def lowerSeg (l : List Char) : List Char := l.map Char.toLower

/-- The segment of `l` from position `i` (inclusive) to `j` (exclusive). -/
def seg (l : List Char) (i j : Nat) : List Char := (l.drop i).take (j - i)

/-- Keep the reachable closing-quote candidates: every escaped quote can
be crossed by the `\\.` branch, the first unescaped quote ends the
reachable region (it is itself a candidate). -/
def takeThroughUnescaped (l : List Char) : List Nat → List Nat
  | [] => []
  | i :: rest =>
    if l.get? (i - 1) == some bslashChar then i :: takeThroughUnescaped l rest
    else [i]

/-- End position of a quoted body alternative followed by `\s*\)`,
starting with the opening quote at `b`; candidates are tried longest
first, matching the greedy star with backtracking. -/
def quotedAlt (l : List Char) (q : Char) (b : Nat) : Option Nat :=
  if l.get? b == some q then
    let cands := takeThroughUnescaped l
      ((List.range l.length).filter (fun i => decide (b < i) && (l.get? i == some q)))
    cands.reverse.findSome? (fun c =>
      let j := skipWs l (c + 1)
      if l.get? j == some ')' then some (j + 1) else none)
  else none

/-- End position of the unquoted body alternative `(?:\\.|[^\)])*\s*\)`
starting at `b`: the star crosses escaped parentheses only, so the match
ends just after the first unescaped closing parenthesis, or after the
last (escaped) one when no unescaped one exists. -/
def unquotedAlt (l : List Char) (b : Nat) : Option Nat :=
  let ps := (List.range l.length).filter (fun i => decide (b ≤ i) && (l.get? i == some ')'))
  match ps.find? (fun i => !(decide (b < i) && (l.get? (i - 1) == some bslashChar))) with
  | some i => some (i + 1)
  | none =>
    match ps.getLast? with
    | some i => some (i + 1)
    | none => none

/-- Does the `url\(\s*(...)\s*\)` part of the regex match at position `k`
(case-insensitively)?  Returns the end position of the match. -/
def urlMatchAt (l : List Char) (k : Nat) : Option Nat :=
  if ((l.get? k).map Char.toLower == some 'u') &&
     ((l.get? (k + 1)).map Char.toLower == some 'r') &&
     ((l.get? (k + 2)).map Char.toLower == some 'l') &&
     (l.get? (k + 3) == some '(') then
    let b := skipWs l (k + 4)
    match quotedAlt l dquoteChar b with
    | some e => some e
    | none =>
      match quotedAlt l squoteChar b with
      | some e => some e
      | none => unquotedAlt l b
  else none

/-- Lazy search of the next `url(...)` notation from position `i`: the
smallest start `k ≥ i` reachable by `(.*?)` (which cannot cross a
newline) such that the URL pattern matches at `k`. -/
def findUrlFrom (l : List Char) (i : Nat) : Option (Nat × Nat) :=
  let run := ((l.drop i).takeWhile (fun c => c != '\n')).length
  (List.range (run + 1)).findSome? (fun d =>
    (urlMatchAt l (i + d)).map (fun e => (i + d, e)))

/-- One `finditer` pass: lowercase each group-1 segment, keep each
matched `url(...)` notation verbatim, leave positions where no match
attempt succeeds unchanged.  `fuel` only ensures termination and is
always supplied large enough. -/
def normUrlGo (l : List Char) : Nat → Nat → List Char
  | 0, i => l.drop i
  | fuel + 1, i =>
    if i ≥ l.length then []
    else
      match findUrlFrom l i with
      | some (k, e) => lowerSeg (seg l i k) ++ seg l k e ++ normUrlGo l fuel e
      | none =>
        let stop := if l.getLast? == some '\n' then l.length - 1 else l.length
        if decide (i ≤ stop) && ((seg l i stop).all (fun c => c != '\n')) then
          lowerSeg (seg l i stop) ++ l.drop stop
        else
          match l.get? i with
          | some c => c :: normUrlGo l fuel (i + 1)
          | none => []

/-- Model of `normalize_url_style_declaration` (parser.py lines 118-142). -/
def normalize_url_style_declaration (value : String) : String :=
  ⟨normUrlGo value.data (value.data.length + 1) 0⟩

/-- Word characters of the regex class `\w` (ASCII). -/
def isWordChar (c : Char) : Bool := c.isAlphanum || c == '_'

/-- Characters matched by `[^\s,]`. -/
def isTokChar (c : Char) : Bool := !(isPySpace c || c == ',')

/-- End of a separator `(\s+|\s*,\s*)` starting at `j`, if one matches
and can be followed by a further token (after a comma-less whitespace
run the next character cannot be a comma, since a token never starts
with one). -/
def sepEnd (l : List Char) (j : Nat) : Option Nat :=
  let w := skipWs l j
  if l.get? w == some ',' then some (skipWs l (w + 1))
  else if w > j then some w
  else none

/-- End position of the font-shorthand prefix matched by
`^((\d[^\s,]*|\w[^\s,]*)(\s+|\s*,\s*))*\d[^\s,]*`: the greedy star takes
the longest chain of word tokens separated by whitespace/comma that ends
in a token starting with a digit.  `fuel` only ensures termination. -/
def fontChainEnd (l : List Char) : Nat → Nat → Option Nat
  | 0, _ => none
  | fuel + 1, i =>
    let t := ((l.drop i).takeWhile isTokChar).length
    if t = 0 then none
    else
      match l.get? i with
      | none => none
      | some c0 =>
        if isWordChar c0 then
          let cur := if c0.isDigit then some (i + t) else none
          let nxt := match sepEnd l (i + t) with
            | some j => fontChainEnd l fuel j
            | none => none
          match nxt with
          | some e => some e
          | none => cur
        else none

/-- Model of `normalize_font_style_declaration` (parser.py lines 145-165). -/
def normalize_font_style_declaration (value : String) : String :=
  match fontChainEnd value.data (value.data.length + 1) 0 with
  | some e => ⟨lowerSeg (seg value.data 0 e) ++ value.data.drop e⟩
  | none => value

/-- Model of the `CASE_SENSITIVE_STYLE_METHODS` dict
(parser.py lines 420-435). -/
def CASE_SENSITIVE_STYLE_METHODS : List (String × (String → String)) :=
  [("id", normalize_noop_style_declaration),
   ("class", normalize_noop_style_declaration),
   ("font-family", normalize_noop_style_declaration),
   ("font", normalize_font_style_declaration),
   ("clip-path", normalize_url_style_declaration),
   ("color-profile", normalize_url_style_declaration),
   ("cursor", normalize_url_style_declaration),
   ("fill", normalize_url_style_declaration),
   ("filter", normalize_url_style_declaration),
   ("marker-start", normalize_url_style_declaration),
   ("marker-mid", normalize_url_style_declaration),
   ("marker-end", normalize_url_style_declaration),
   ("mask", normalize_url_style_declaration),
   ("stroke", normalize_url_style_declaration)]

/-- Lookup in `CASE_SENSITIVE_STYLE_METHODS`. -/
def lookupMethod (name : String) : Option (String → String) :=
  (CASE_SENSITIVE_STYLE_METHODS.find? (fun p => p.1 == name)).map (·.2)

/-- Model of `normalize_style_declaration` (parser.py lines 86-105):
the name is stripped and lowercased; the value is stripped and then
lowercased unless the name selects a case-sensitive method. -/
def normalize_style_declaration (name value : String) : String × String :=
  let name := toLowerStr (pyStrip name)
  let value := pyStrip value
  let value := match lookupMethod name with
    | some f => f value
    | none => toLowerStr value
  (name, value)

theorem urlMatchAt_none_of_no_paren (l : List Char) (h : '(' ∉ l) (k : Nat) :
    urlMatchAt l k = none := by
  rw [urlMatchAt, if_neg]
  intro hcond
  have hd : (l.get? (k + 3) == some '(') = true := by
    simp only [Bool.and_eq_true] at hcond
    exact hcond.2
  have : l.get? (k + 3) = some '(' := by simpa using hd
  exact h (List.get?_mem this)

theorem findUrlFrom_none_of_no_paren (l : List Char) (h : '(' ∉ l) (i : Nat) :
    findUrlFrom l i = none := by
  rw [findUrlFrom, List.findSome?_eq_none_iff]
  intro d _
  rw [urlMatchAt_none_of_no_paren l h]
  rfl

theorem normUrl_no_paren (s : String) (h1 : '(' ∉ s.data) (h2 : '\n' ∉ s.data) :
    normalize_url_style_declaration s = toLowerStr s := by
  rw [normalize_url_style_declaration, toLowerStr]
  congr 1
  cases hl : s.data with
  | nil => rfl
  | cons c rest =>
    rw [hl] at h1 h2
    rw [normUrlGo]
    rw [if_neg (by simp)]
    rw [findUrlFrom_none_of_no_paren _ h1]
    have hlast : ((c :: rest).getLast? == some '\n') = false := by
      cases hg : (c :: rest).getLast? with
      | none => rfl
      | some d =>
        have hd : d ∈ c :: rest := by
          have := List.getLast?_eq_getLast (c :: rest) (by simp)
          rw [this] at hg
          cases hg
          exact List.getLast_mem _
        simp only [beq_eq_false_iff_ne, ne_eq, Option.some.injEq]
        intro hdn
        exact h2 (hdn ▸ hd)
    simp only [hlast]
    rw [if_pos]
    · simp [seg, lowerSeg]
    · simp only [Bool.and_eq_true, decide_eq_true_eq, seg]
      refine ⟨Nat.zero_le _, ?_⟩
      simp only [Nat.sub_zero, List.drop_zero, List.all_eq_true]
      intro x hx
      have hmem : x ∈ c :: rest := List.mem_of_mem_take hx
      simp only [bne_iff_ne, ne_eq]
      intro he
      exact h2 (he ▸ hmem)

/-- C6 counterexample: normalizing the pair ("FILL", "URL(Foo.PNG)")
yields the value "URL(Foo.PNG)" — the whole `url(...)` notation,
including the `URL(` wrapper itself, is left untouched by
`normalize_url_style_declaration` (only the group-1 part outside the
notation is lowercased) — and not the value "url(Foo.PNG)" stated by
the claim. -/
theorem c6_counterexample :
    normalize_style_declaration "FILL" "URL(Foo.PNG)" = ("fill", "URL(Foo.PNG)") ∧
    ("URL(Foo.PNG)" : String) ≠ "url(Foo.PNG)" := by
  exact ⟨by decide, by decide⟩

/-- C6 amended: for URL-bearing properties, normalization lowercases the
parts of the value outside `url(...)` functional notations and preserves
each whole notation — wrapper included, not only the text inside it —
supporting unquoted, single-quoted and double-quoted forms with
backslash escapes inside quotes; in particular ("FILL", "URL(Foo.PNG)")
normalizes to name "fill" and value "URL(Foo.PNG)" (not "url(Foo.PNG)").
All ten URL-bearing properties dispatch to this URL normalizer, and a
value containing no parenthesis and no newline is lowercased wholesale. -/
theorem c6_url_normalization_amended :
    normalize_style_declaration "FILL" "URL(Foo.PNG)" = ("fill", "URL(Foo.PNG)") ∧
    normalize_style_declaration "fill" "RED URL(Foo.PNG) BLUE" =
      ("fill", "red URL(Foo.PNG) blue") ∧
    normalize_style_declaration "Mask" "Url('Foo.PNG') GREEN" =
      ("mask", "Url('Foo.PNG') green") ∧
    normalize_style_declaration "stroke" "X url(\"a\\\") b\") Z" =
      ("stroke", "x url(\"a\\\") b\") z") ∧
    (∀ p ∈ ["clip-path", "color-profile", "cursor", "fill", "filter", "marker-start",
        "marker-mid", "marker-end", "mask", "stroke"],
      lookupMethod p = some normalize_url_style_declaration) ∧
    (∀ s : String, '(' ∉ s.data → '\n' ∉ s.data →
      normalize_url_style_declaration s = toLowerStr s) := by
  refine ⟨by decide, by decide, by decide, by decide, ?_, normUrl_no_paren⟩
  intro p hp
  fin_cases hp <;> rfl

/-- C6 amended, witness: the final conjunct applied at the concrete
parenthesis-free value "CurrentColor". -/
theorem c6_url_normalization_amended_witness :
    normalize_url_style_declaration "CurrentColor" = toLowerStr "CurrentColor" :=
  c6_url_normalization_amended.2.2.2.2.2 "CurrentColor" (by decide) (by decide)

/-! ## The attribute cascade (`Node.__init__`, parser.py lines 168-234)

`Node.__init__` computes the resolved attribute dict of one node:
it copies the inheritable attributes of the parent, overwrites them with
the raw element attributes (`self.update(self.xml_tree.attrib)`), then
assigns, in order, the stylesheet normal-precedence declaration lists,
the inline-style normal declarations, the stylesheet
important-precedence declaration lists and the inline-style important
declarations (each value `.strip()`ed), and finally applies the
`currentColor` and `inherit` substitutions. -/

/-- Model of `NOT_INHERITED_ATTRIBUTES` (parser.py lines 37-59). -/
def NOT_INHERITED_ATTRIBUTES : List String :=
  ["clip", "clip-path", "display", "filter", "height", "id", "mask",
   "opacity", "overflow", "rotate", "stop-color", "stop-opacity", "style",
   "transform", "viewBox", "width", "x", "y", "dx", "dy",
   "\x7bhttp://www.w3.org/1999/xlink\x7dhref"]

/-- Model of `COLOR_ATTRIBUTES` (parser.py lines 61-67). -/
def COLOR_ATTRIBUTES : List String :=
  ["fill", "flood-color", "lighting-color", "stop-color", "stroke"]

/-- The cascade inputs of one node: the parent attribute dict (when the
node has a parent), the raw element attributes, and the four declaration
sources (the two matchers return a list of declaration lists, the inline
`style=` attribute is split into a normal and an important list). -/
structure CascadeInput where
  parentAttrs : Option AttrMap
  rawAttrs : AttrMap
  sheetNormal : List (List (String × String))
  inlineNormal : List (String × String)
  sheetImportant : List (List (String × String))
  inlineImportant : List (String × String)

/-- The inheritance step (parser.py lines 194-197): every parent
attribute whose name is not in `NOT_INHERITED_ATTRIBUTES` is copied. -/
def inheritedFrom (p : AttrMap) : AttrMap :=
  p.filter (fun q => !(NOT_INHERITED_ATTRIBUTES.contains q.1))

/-- The assignment tiers of the cascade (parser.py lines 194-220),
before the two substitution passes: inheritance, raw element
attributes, then the four declaration sources in order, each later
assignment overwriting an earlier one for the same name, with
declaration values stripped (`self[name] = value.strip()`). -/
def cascadeTiers (ci : CascadeInput) : AttrMap :=
  let m0 := match ci.parentAttrs with
    | some p => inheritedFrom p
    | none => []
  let m1 := ci.rawAttrs.foldl (fun m q => setA m q.1 q.2) m0
  let allDecls := ci.sheetNormal ++ [ci.inlineNormal] ++ ci.sheetImportant ++
    [ci.inlineImportant]
  allDecls.foldl (fun m ds => ds.foldl (fun m q => setA m q.1 (pyStrip q.2)) m) m1

/-- The `currentColor` substitution pass (parser.py lines 222-225): each
color attribute whose value is literally "currentColor" is replaced by
the node's current `color` value, defaulting to "black". -/
def substituteCurrentColor (m : AttrMap) : AttrMap :=
  COLOR_ATTRIBUTES.foldl
    (fun acc a =>
      if getA acc a = some "currentColor" then
        setA acc a ((getA acc "color").getD "black")
      else acc) m

/-- One step of the `inherit` substitution loop: the attribute is copied
from the parent when the parent defines it, deleted otherwise. -/
def inheritStep (parent : Option AttrMap) (acc : AttrMap) (a : String) : AttrMap :=
  match parent with
  | some p =>
    match getA p a with
    | some v => setA acc a v
    | none => eraseA acc a
  | none => eraseA acc a

/-- The `inherit` substitution pass (parser.py lines 227-234): the list
of attributes whose value is literally "inherit" is snapshot first (the
list comprehension), then each is replaced by the parent value or
deleted. -/
def substituteInherit (parent : Option AttrMap) (m : AttrMap) : AttrMap :=
  let inheritKeys := (m.filter (fun q => q.2 == "inherit")).map (·.1)
  inheritKeys.foldl (inheritStep parent) m

/-- The complete attribute cascade of `Node.__init__`. -/
def cascade (ci : CascadeInput) : AttrMap :=
  substituteInherit ci.parentAttrs (substituteCurrentColor (cascadeTiers ci))

/-! ## The node builder (`Node.__init__`, parser.py lines 168-254)

A raw element (the `cssselect2.ElementWrapper` around an
`ElementTree` element) is modelled by its computed tag, its attribute
dict and its child list.  The collaborators consumed by the builder are
parameters: `mf` models `match_features` (features.py), `matcher`
models the pair of stylesheet matchers built by
`css.parse_stylesheets` (each returning, for an element, its ordered
declaration lists `[rule[-1] for rule in matcher.match(element)]`), and
`pd` models `css.parse_declarations` (the inline-style splitter).
The `text`/`text_children` reflow path and the `parent_children`
duplication mode are outside the claims verified here; every node of
the modelled builder runs the same attribute cascade `Node.__init__`
performs. -/

inductive RElem where
  | node (tag : String) (attrib : AttrMap) (children : List RElem)

/-- The computed tag of the element. -/
def RElem.tagOf : RElem → String
  | .node t _ _ => t

/-- The raw attribute dict of the element (`self.xml_tree.attrib`). -/
def RElem.attribOf : RElem → AttrMap
  | .node _ a _ => a

/-- The children of the element (`element.iter_children()`). -/
def RElem.childrenOf : RElem → List RElem
  | .node _ _ cs => cs

inductive SNode where
  | node (tag : String) (attrs : AttrMap) (children : List SNode)

/-- The tag of a built node. -/
def SNode.tagOf : SNode → String
  | .node t _ _ => t

/-- The resolved attribute dict of a built node. -/
def SNode.attrsOf : SNode → AttrMap
  | .node _ a _ => a

/-- The built children of a node. -/
def SNode.childrenOf : SNode → List SNode
  | .node _ _ cs => cs

/-- The cascade inputs of element `e` built under `parent`: raw
attributes from the element, stylesheet declaration lists from the two
matchers, inline declarations from parsing a non-empty `style`
attribute (`if style_attr:` is false for an absent or empty string). -/
def nodeCascadeInput
    (matcher : RElem → List (List (String × String)) × List (List (String × String)))
    (pd : String → List (String × String) × List (String × String))
    (parent : Option AttrMap) (e : RElem) : CascadeInput :=
  let styleDecls := match getA e.attribOf "style" with
    | some s => if s = "" then ([], []) else pd s
    | none => ([], [])
  { parentAttrs := parent
    rawAttrs := e.attribOf
    sheetNormal := (matcher e).1
    inlineNormal := styleDecls.1
    sheetImportant := (matcher e).2
    inlineImportant := styleDecls.2 }

/-- The resolved attributes of element `e` built under `parent`. -/
def nodeAttrs
    (matcher : RElem → List (List (String × String)) × List (List (String × String)))
    (pd : String → List (String × String) × List (String × String))
    (parent : Option AttrMap) (e : RElem) : AttrMap :=
  cascade (nodeCascadeInput matcher pd parent e)

mutual
/-- Recursive node construction: resolve the attributes, then build the
children; a child is built only when `match_features` accepts its
element, and when the tag is `switch` the loop breaks after the first
accepted child. -/
def build (mf : RElem → Bool)
    (matcher : RElem → List (List (String × String)) × List (List (String × String)))
    (pd : String → List (String × String) × List (String × String))
    (parent : Option AttrMap) : RElem → SNode
  | RElem.node t a cs =>
    let attrs := nodeAttrs matcher pd parent (RElem.node t a cs)
    SNode.node t attrs (buildKids mf matcher pd (t == "switch") attrs cs)
/-- The child-construction loop of `Node.__init__`
(parser.py lines 246-254). -/
def buildKids (mf : RElem → Bool)
    (matcher : RElem → List (List (String × String)) × List (List (String × String)))
    (pd : String → List (String × String) × List (String × String))
    (isSwitch : Bool) (pa : AttrMap) : List RElem → List SNode
  | [] => []
  | c :: rest =>
    if mf c then
      if isSwitch then [build mf matcher pd (some pa) c]
      else build mf matcher pd (some pa) c :: buildKids mf matcher pd isSwitch pa rest
    else buildKids mf matcher pd isSwitch pa rest
end

mutual
/-- Every node of a built subtree, in document order. -/
def nodesOf : SNode → List SNode
  | SNode.node t a cs => SNode.node t a cs :: nodesListOf cs
/-- Every node of a list of built subtrees. -/
def nodesListOf : List SNode → List SNode
  | [] => []
  | c :: rest => nodesOf c ++ nodesListOf rest
end

theorem buildKids_switch (mf : RElem → Bool)
    (matcher : RElem → List (List (String × String)) × List (List (String × String)))
    (pd : String → List (String × String) × List (String × String))
    (pa : AttrMap) (cs : List RElem) :
    buildKids mf matcher pd true pa cs =
      match cs.find? mf with
      | some c => [build mf matcher pd (some pa) c]
      | none => [] := by
  induction cs with
  | nil => simp [buildKids]
  | cons c rest ih =>
    by_cases h : mf c = true
    · simp [buildKids, h, List.find?_cons_of_pos _ h]
    · rw [List.find?_cons_of_neg _ (by simp [h])]
      simp only [buildKids, h, Bool.false_eq_true, ite_false]
      exact ih

/-- Feature predicate of the concrete `switch` example: an element
passes iff its attribute `p` is `"1"`. -/
def mfExample (e : RElem) : Bool := getA e.attribOf "p" == some "1"

/-- A trivial stylesheet matcher pair: no rule matches any element. -/
def matcher0 : RElem → List (List (String × String)) × List (List (String × String)) :=
  fun _ => ([], [])

/-- A trivial inline-style splitter: no declarations. -/
def pd0 : String → List (String × String) × List (String × String) :=
  fun _ => ([], [])

/-- C7: when a node's tag is `switch`, its built children are exactly
the singleton of the first child accepted by the feature predicate
(children before it that fail the predicate are omitted, no child after
it is built), and the empty list when no child is accepted; in
particular a switch with children A (fails), B (passes), C (passes)
builds children [B] only. -/
theorem c7_switch_semantics :
    (∀ (mf : RElem → Bool)
      (matcher : RElem → List (List (String × String)) × List (List (String × String)))
      (pd : String → List (String × String) × List (String × String))
      (parent : Option AttrMap) (a : AttrMap) (cs : List RElem),
      (build mf matcher pd parent (RElem.node "switch" a cs)).childrenOf =
        match cs.find? mf with
        | some c => [build mf matcher pd
            (some (nodeAttrs matcher pd parent (RElem.node "switch" a cs))) c]
        | none => []) ∧
    (build mfExample matcher0 pd0 none
        (RElem.node "switch" []
          [RElem.node "a" [("p", "0")] [],
           RElem.node "b" [("p", "1")] [],
           RElem.node "c" [("p", "1")] []])).childrenOf =
      [SNode.node "b" [("p", "1")] []] := by
  constructor
  · intro mf matcher pd parent a cs
    simp only [build, SNode.childrenOf]
    rw [show ("switch" == "switch") = true from rfl]
    exact buildKids_switch mf matcher pd _ cs
  · simp [build, buildKids, mfExample, matcher0, pd0, nodeAttrs, nodeCascadeInput,
      cascade, cascadeTiers, inheritedFrom, substituteCurrentColor, substituteInherit,
      inheritStep, setA, hasKey, replaceVal, getA, eraseA, COLOR_ATTRIBUTES,
      NOT_INHERITED_ATTRIBUTES, RElem.attribOf, SNode.childrenOf, pyStrip, pyStripList]

/-! ## C1: cascade precedence -/

/-- Value of the last declaration for name `k` in a declaration list
(the survivor when the list is assigned in order). -/
def lastFind : List (String × String) → String → Option String
  | [], _ => none
  | p :: rest, k =>
    match lastFind rest k with
    | some v => some v
    | none => if p.1 = k then some p.2 else none

theorem getA_foldl_set (g : String → String) (l : List (String × String))
    (m : AttrMap) (k : String) :
    getA (l.foldl (fun acc q => setA acc q.1 (g q.2)) m) k =
      match lastFind l k with
      | some v => some (g v)
      | none => getA m k := by
  induction l generalizing m with
  | nil => simp [lastFind]
  | cons p rest ih =>
    rw [List.foldl_cons, ih]
    cases hr : lastFind rest k with
    | some v => simp [lastFind, hr]
    | none =>
      simp only [lastFind, hr]
      rw [getA_setA]
      by_cases h : k = p.1
      · simp [h]
      · simp [h, show ¬ p.1 = k from fun hc => h hc.symm]

theorem getA_foldl_set_id (l : List (String × String)) (m : AttrMap) (k : String) :
    getA (l.foldl (fun acc q => setA acc q.1 q.2) m) k =
      match lastFind l k with
      | some v => some v
      | none => getA m k := by
  induction l generalizing m with
  | nil => simp [lastFind]
  | cons p rest ih =>
    rw [List.foldl_cons, ih]
    cases hr : lastFind rest k with
    | some v => simp [lastFind, hr]
    | none =>
      simp only [lastFind, hr]
      rw [getA_setA]
      by_cases h : k = p.1
      · simp [h]
      · simp [h, show ¬ p.1 = k from fun hc => h hc.symm]

theorem foldl_decls_flatten (g : String → String)
    (ls : List (List (String × String))) (m : AttrMap) :
    ls.foldl (fun m ds => ds.foldl (fun acc q => setA acc q.1 (g q.2)) m) m =
      ls.flatten.foldl (fun acc q => setA acc q.1 (g q.2)) m := by
  induction ls generalizing m with
  | nil => simp
  | cons ds rest ih => simp [ih, List.foldl_append]

theorem lastFind_append (l1 l2 : List (String × String)) (k : String) :
    lastFind (l1 ++ l2) k =
      match lastFind l2 k with
      | some v => some v
      | none => lastFind l1 k := by
  induction l1 with
  | nil => simp [lastFind]; cases lastFind l2 k <;> simp
  | cons p rest ih =>
    simp only [List.cons_append, lastFind, List.append_eq]
    rw [ih]
    cases lastFind l2 k <;> cases lastFind rest k <;> simp

theorem getA_inheritedFrom (p : AttrMap) (k : String) :
    getA (inheritedFrom p) k =
      if k ∈ NOT_INHERITED_ATTRIBUTES then none else getA p k := by
  induction p with
  | nil => simp [inheritedFrom, getA]
  | cons q rest ih =>
    rw [inheritedFrom, List.filter_cons]
    rw [inheritedFrom] at ih
    by_cases hq : q.1 ∈ NOT_INHERITED_ATTRIBUTES
    · rw [if_neg (by simp [List.contains, hq])]
      rw [ih]
      by_cases hk1 : q.1 = k
      · subst hk1; simp [hq]
      · simp [getA, hk1]
    · rw [if_pos (by simp [List.contains, hq])]
      by_cases hk1 : q.1 = k
      · subst hk1; simp [getA, hq]
      · simp only [getA, hk1, ite_false]
        exact ih

/-- The resolved value of name `k`, written the way the claim states the
algorithm: the six tiers are consulted from highest to lowest precedence
(inline-style important, stylesheet important, inline-style normal,
stylesheet normal, raw element attributes, inherited parent values), and
within a tier the last assignment wins; declaration values are stripped,
raw attributes are applied verbatim, inherited values are the parent's
attributes outside the non-inherited set. -/
def specResolve (ci : CascadeInput) (k : String) : Option String :=
  match lastFind ci.inlineImportant k with
  | some v => some (pyStrip v)
  | none =>
  match lastFind ci.sheetImportant.flatten k with
  | some v => some (pyStrip v)
  | none =>
  match lastFind ci.inlineNormal k with
  | some v => some (pyStrip v)
  | none =>
  match lastFind ci.sheetNormal.flatten k with
  | some v => some (pyStrip v)
  | none =>
  match lastFind ci.rawAttrs k with
  | some v => some v
  | none =>
  match ci.parentAttrs with
  | some p => if k ∈ NOT_INHERITED_ATTRIBUTES then none else getA p k
  | none => none

/-- C1: the assignment tiers of `Node.__init__` resolve every attribute
name exactly as the claim orders them — inherited parent values, raw
element attributes, stylesheet normal declarations, inline normal
declarations, stylesheet important declarations, inline important
declarations, later assignments overwriting earlier ones for the same
name; in particular a stylesheet rule `fill: red` against an inline
`fill: blue` resolves to blue, and adding a stylesheet important
`fill: green` resolves to green. -/
theorem c1_cascade_order :
    (∀ (ci : CascadeInput) (k : String), getA (cascadeTiers ci) k = specResolve ci k) ∧
    getA (cascade ⟨none, [], [[("fill", "red")]], [("fill", "blue")], [], []⟩) "fill"
      = some "blue" ∧
    getA (cascade ⟨none, [], [[("fill", "red")]], [("fill", "blue")],
      [[("fill", "green")]], []⟩) "fill" = some "green" := by
  refine ⟨?_, ?_, ?_⟩
  · rintro ⟨pa, ra, sn, inl, si, ii⟩ k
    simp only [cascadeTiers, specResolve]
    rw [foldl_decls_flatten, getA_foldl_set]
    have hflat : (sn ++ [inl] ++ si ++ [ii]).flatten =
        ((sn.flatten ++ inl) ++ si.flatten) ++ ii := by
      simp
    rw [hflat, lastFind_append, lastFind_append, lastFind_append, getA_foldl_set_id]
    cases h1 : lastFind ii k with
    | some v => simp
    | none =>
      cases h2 : lastFind si.flatten k with
      | some v => simp
      | none =>
        cases h3 : lastFind inl k with
        | some v => simp
        | none =>
          cases h4 : lastFind sn.flatten k with
          | some v => simp
          | none =>
            cases h5 : lastFind ra k with
            | some v => simp
            | none =>
              cases pa with
              | none => simp [getA]
              | some p => simp [getA_inheritedFrom]
  · simp [cascade, cascadeTiers, inheritedFrom, substituteCurrentColor,
      substituteInherit, inheritStep, setA, hasKey, replaceVal, getA, eraseA,
      COLOR_ATTRIBUTES, pyStrip, pyStripList, isPySpace, List.dropWhile]
  · simp [cascade, cascadeTiers, inheritedFrom, substituteCurrentColor,
      substituteInherit, inheritStep, setA, hasKey, replaceVal, getA, eraseA,
      COLOR_ATTRIBUTES, pyStrip, pyStripList, isPySpace, List.dropWhile]

/-! ## C5: declarations pass through the normalizer (spec-modelled)

The stylesheet matchers and the inline-style splitter live in `css.py`,
which is not among the sources under verification; only their call
sites in parser.py are.  They are modelled from the spec below. -/

/-- Modelled from the spec: the missing collaborators of `css.py`
(`parse_stylesheets`, whose matchers yield the per-element declaration
lists, and `parse_declarations`, the inline-style splitter) deliver
declarations already "passed through the Normalizer before assignment";
this models that boundary by normalizing a list of raw declaration
pairs with `normalize_style_declaration`. -/
def modelledDeclarations (raw : List (String × String)) : List (String × String) :=
  raw.map (fun q => normalize_style_declaration q.1 q.2)

/-- The `(name, value)` pairs assigned into the node dict by tiers 3-6
of the cascade (the triple loop of parser.py lines 216-220), in
assignment order; each value is `.strip()`ed by the assignment
statement `self[name] = value.strip()`. -/
def assignedPairs (ci : CascadeInput) : List (String × String) :=
  ((ci.sheetNormal ++ [ci.inlineNormal] ++ ci.sheetImportant ++
    [ci.inlineImportant]).flatten).map (fun q => (q.1, pyStrip q.2))

/-- C5: the tiers of the cascade assign exactly the pairs of
`assignedPairs` on top of the inherited and raw-attribute maps; with
the collaborators modelled from the spec, every pair assigned in tiers
3 through 6 is the output of `normalize_style_declaration` on a raw
collaborator pair (with the value further stripped by the assignment,
a no-op on normalizer output for the default branches); the normalizer
trims and lowercases the name, and trims and lowercases the value for
every name outside the case-sensitive set. -/
theorem c5_normalized_assignments :
    (∀ ci : CascadeInput,
      cascadeTiers ci = (assignedPairs ci).foldl (fun acc q => setA acc q.1 q.2)
        (ci.rawAttrs.foldl (fun m q => setA m q.1 q.2)
          (match ci.parentAttrs with
           | some p => inheritedFrom p
           | none => []))) ∧
    (∀ (sn si : List (List (String × String))) (n0 i0 : List (String × String))
       (pa : Option AttrMap) (ra : AttrMap),
      assignedPairs ⟨pa, ra, sn.map modelledDeclarations, modelledDeclarations n0,
          si.map modelledDeclarations, modelledDeclarations i0⟩ =
        (sn.flatten ++ n0 ++ si.flatten ++ i0).map
          (fun q => ((normalize_style_declaration q.1 q.2).1,
            pyStrip (normalize_style_declaration q.1 q.2).2))) ∧
    (∀ name value : String,
      (normalize_style_declaration name value).1 = toLowerStr (pyStrip name)) ∧
    (∀ name value : String, lookupMethod (toLowerStr (pyStrip name)) = none →
      (normalize_style_declaration name value).2 = toLowerStr (pyStrip value)) := by
  refine ⟨?_, ?_, ?_, ?_⟩
  · intro ci
    simp only [cascadeTiers, assignedPairs, foldl_decls_flatten, List.foldl_map]
  · intro sn si n0 i0 pa ra
    simp only [assignedPairs]
    simp [List.map_flatten, List.map_map, Function.comp_def, modelledDeclarations]
  · intro name value
    cases h : lookupMethod (toLowerStr (pyStrip name)) <;>
      simp [normalize_style_declaration, h]
  · intro name value h
    simp [normalize_style_declaration, h]

/-- C5 witness: the default-branch conjunct applied at the concrete
declaration ("color", " RED "), whose hypothesis (the name "color" is
not in the case-sensitive table) is discharged by computation. -/
theorem c5_normalized_assignments_witness :
    (normalize_style_declaration "color" " RED ").2 = toLowerStr (pyStrip " RED ") :=
  c5_normalized_assignments.2.2.2 "color" " RED " rfl

/-! ## Lemmas on the two substitution passes -/

theorem getA_isSome_of_mem (m : AttrMap) (k v : String) (h : (k, v) ∈ m) :
    getA m k ≠ none := by
  induction m with
  | nil => simp at h
  | cons p rest ih =>
    rcases List.mem_cons.mp h with h1 | h1
    · simp [getA, ← h1]
    · by_cases hp : p.1 = k
      · simp [getA, hp]
      · simp only [getA, hp, ite_false]
        exact ih h1

theorem getA_ccFold (l : List String) (hl : "color" ∉ l) (m : AttrMap) (k : String) :
    getA (l.foldl
      (fun acc a =>
        if getA acc a = some "currentColor" then
          setA acc a ((getA acc "color").getD "black")
        else acc) m) k =
      if k ∈ l ∧ getA m k = some "currentColor" then
        some ((getA m "color").getD "black")
      else getA m k := by
  induction l generalizing m with
  | nil => simp
  | cons a rest ih =>
    have ha : a ≠ "color" := fun hc => hl (hc ▸ List.mem_cons_self a rest)
    have hrest : "color" ∉ rest := fun hc => hl (List.mem_cons_of_mem a hc)
    rw [List.foldl_cons]
    by_cases hguard : getA m a = some "currentColor"
    · rw [if_pos hguard, ih hrest]
      have hcol : getA (setA m a ((getA m "color").getD "black")) "color" =
          getA m "color" := by
        rw [getA_setA, if_neg (fun hc : "color" = a => ha hc.symm)]
      rw [hcol]
      by_cases hk : k = a
      · subst hk
        have hk' : getA (setA m k ((getA m "color").getD "black")) k =
            some ((getA m "color").getD "black") := by
          rw [getA_setA, if_pos rfl]
        rw [hk', ite_self]
        rw [if_pos ⟨List.mem_cons_self k rest, hguard⟩]
      · have hk' : getA (setA m a ((getA m "color").getD "black")) k = getA m k := by
          rw [getA_setA, if_neg hk]
        rw [hk']
        simp [List.mem_cons, hk]
    · rw [if_neg hguard, ih hrest]
      by_cases hk : k = a
      · subst hk
        simp [hguard, List.mem_cons]
      · simp [List.mem_cons, hk]

theorem getA_substituteCurrentColor (m : AttrMap) (k : String) :
    getA (substituteCurrentColor m) k =
      if k ∈ COLOR_ATTRIBUTES ∧ getA m k = some "currentColor" then
        some ((getA m "color").getD "black")
      else getA m k :=
  getA_ccFold COLOR_ATTRIBUTES (by decide) m k

theorem getA_inheritStep_ne (parent : Option AttrMap) (m : AttrMap) (a k : String)
    (h : k ≠ a) : getA (inheritStep parent m a) k = getA m k := by
  cases parent with
  | none => simp [inheritStep, getA_eraseA, h]
  | some p =>
    cases hp : getA p a with
    | some v => simp [inheritStep, hp, getA_setA, h]
    | none => simp [inheritStep, hp, getA_eraseA, h]

theorem getA_inhFold_not_mem (parent : Option AttrMap) (keys : List String)
    (m : AttrMap) (k : String) (hk : k ∉ keys) :
    getA (keys.foldl (inheritStep parent) m) k = getA m k := by
  induction keys generalizing m with
  | nil => rfl
  | cons a rest ih =>
    have hka : k ≠ a := fun hc => hk (hc ▸ List.mem_cons_self a rest)
    have hkr : k ∉ rest := fun hc => hk (List.mem_cons_of_mem a hc)
    rw [List.foldl_cons, ih _ hkr, getA_inheritStep_ne parent m a k hka]

theorem getA_inhFold_mem (parent : Option AttrMap) (keys : List String)
    (m : AttrMap) (k : String) (hk : k ∈ keys) :
    getA (keys.foldl (inheritStep parent) m) k =
      match parent with
      | some p => getA p k
      | none => none := by
  induction keys generalizing m with
  | nil => simp at hk
  | cons a rest ih =>
    rw [List.foldl_cons]
    by_cases hr : k ∈ rest
    · exact ih _ hr
    · have hak : a = k := by
        rcases List.mem_cons.mp hk with h1 | h1
        · exact h1.symm
        · exact absurd h1 hr
      subst hak
      rw [getA_inhFold_not_mem parent rest _ a hr]
      cases parent with
      | none => simp [inheritStep, getA_eraseA]
      | some p =>
        cases hp : getA p a with
        | some v => simp [inheritStep, hp, getA_setA]
        | none => simp [inheritStep, hp, getA_eraseA]

/-! ## C2: inheritance -/

/-- A feature predicate accepting every element. -/
def mfAll : RElem → Bool := fun _ => true

/-- Three nested `g` elements: the root carries
`color="currentColor" fill="currentColor"`, the middle carries
`fill="inherit" color="red"`, the leaf carries no attribute at all. -/
def c2tree : RElem :=
  RElem.node "g" [("color", "currentColor"), ("fill", "currentColor")]
    [RElem.node "g" [("fill", "inherit"), ("color", "red")]
      [RElem.node "g" [] []]]

/-- First built child of a node (the trees used here have exactly one). -/
def firstChild (n : SNode) : SNode := n.childrenOf.headD (SNode.node "" [] [])

/-- C2 counterexample: in the tree built from `c2tree` (with no
stylesheet and every feature accepted), the middle node resolves
`fill = "currentColor"` with `color = "red"`; its child has no own
attributes, declarations or inline style, and `fill` is outside the
non-inherited set, yet the child resolves `fill = "red"` — the
`currentColor` substitution of `Node.__init__` replaces the inherited
value, so the child's attributes restricted to the complement of the
non-inherited set do not equal the parent's. -/
theorem c2_counterexample :
    getA (firstChild (build mfAll matcher0 pd0 none c2tree)).attrsOf "fill" =
      some "currentColor" ∧
    getA (firstChild (firstChild (build mfAll matcher0 pd0 none c2tree))).attrsOf
      "fill" = some "red" ∧
    ("fill" ∈ NOT_INHERITED_ATTRIBUTES) = False ∧
    (RElem.node "g" [] [] : RElem).attribOf = [] := by
  refine ⟨?_, ?_, by simp [NOT_INHERITED_ATTRIBUTES], rfl⟩ <;>
    simp [build, buildKids, mfAll, matcher0, pd0, c2tree, firstChild, nodeAttrs,
      nodeCascadeInput, cascade, cascadeTiers, inheritedFrom, substituteCurrentColor,
      substituteInherit, inheritStep, setA, hasKey, replaceVal, getA, eraseA,
      COLOR_ATTRIBUTES, NOT_INHERITED_ATTRIBUTES, RElem.attribOf, SNode.attrsOf,
      SNode.childrenOf, pyStrip, pyStripList, isPySpace, List.dropWhile]

/-- The cascade input of a node with no own attributes, no matched
stylesheet declarations and no inline style, under parent `p`. -/
def noOwn (p : AttrMap) : CascadeInput := ⟨some p, [], [], [], [], []⟩

/-- C2 amended: the inheritance step of `Node.__init__` copies exactly
the parent attributes outside the fixed non-inherited set and never
copies an attribute of that set; consequently, for a child with no own
attributes, declarations or inline style, the child's resolved
attributes agree with the parent's on the complement of the
non-inherited set and are absent on the set itself — provided no
attribute of the parent among the five color attributes is literally
"currentColor" (otherwise the `currentColor` substitution can rewrite
the inherited value, as the counterexample shows). -/
theorem c2_inheritance_amended :
    (∀ (p : AttrMap) (k : String),
      (k ∉ NOT_INHERITED_ATTRIBUTES → getA (inheritedFrom p) k = getA p k) ∧
      (k ∈ NOT_INHERITED_ATTRIBUTES → getA (inheritedFrom p) k = none)) ∧
    (∀ p : AttrMap,
      (∀ a ∈ COLOR_ATTRIBUTES, getA p a ≠ some "currentColor") →
      ∀ k : String,
        (k ∉ NOT_INHERITED_ATTRIBUTES → getA (cascade (noOwn p)) k = getA p k) ∧
        (k ∈ NOT_INHERITED_ATTRIBUTES → getA (cascade (noOwn p)) k = none)) := by
  constructor
  · intro p k
    constructor
    · intro hk
      rw [getA_inheritedFrom, if_neg hk]
    · intro hk
      rw [getA_inheritedFrom, if_pos hk]
  · intro p hp k
    have hmid : cascadeTiers (noOwn p) = inheritedFrom p := rfl
    have hsub : ∀ k' : String,
        getA (substituteCurrentColor (cascadeTiers (noOwn p))) k' =
          getA (inheritedFrom p) k' := by
      intro k'
      rw [getA_substituteCurrentColor, hmid, if_neg]
      rintro ⟨hkc, hcc⟩
      rw [getA_inheritedFrom] at hcc
      by_cases hnia : k' ∈ NOT_INHERITED_ATTRIBUTES
      · rw [if_pos hnia] at hcc; exact Option.noConfusion hcc
      · rw [if_neg hnia] at hcc; exact hp k' hkc hcc
    have hcascade : cascade (noOwn p) =
        substituteInherit (some p) (substituteCurrentColor (cascadeTiers (noOwn p))) :=
      rfl
    set m3 := substituteCurrentColor (cascadeTiers (noOwn p)) with hm3
    have hkeys : ∀ k' ∈ (m3.filter (fun q => q.2 == "inherit")).map (·.1),
        getA m3 k' ≠ none := by
      intro k' hk'
      simp only [List.mem_map, List.mem_filter] at hk'
      obtain ⟨q, ⟨hq1, _⟩, hq2⟩ := hk'
      exact hq2 ▸ getA_isSome_of_mem m3 q.1 q.2 (by
        cases q; exact hq1)
    constructor
    · intro hk
      rw [hcascade, substituteInherit]
      by_cases hmem : k ∈ (m3.filter (fun q => q.2 == "inherit")).map (·.1)
      · rw [getA_inhFold_mem (some p) _ _ _ hmem]
      · rw [getA_inhFold_not_mem (some p) _ _ _ hmem, hsub, getA_inheritedFrom,
          if_neg hk]
    · intro hk
      rw [hcascade, substituteInherit]
      have hnone : getA m3 k = none := by
        rw [hm3, hsub, getA_inheritedFrom, if_pos hk]
      have hmem : k ∉ (m3.filter (fun q => q.2 == "inherit")).map (·.1) := by
        intro hmem
        exact hkeys k hmem hnone
      rw [getA_inhFold_not_mem (some p) _ _ _ hmem]
      exact hnone

/-- C2 amended, witness: the consequence applied at the concrete parent
`[("fill", "blue"), ("stop-color", "red")]` and the names `fill`
(inherited) and `stop-color` (not inherited). -/
theorem c2_inheritance_amended_witness :
    getA (cascade (noOwn [("fill", "blue"), ("stop-color", "red")])) "fill" =
      getA [("fill", "blue"), ("stop-color", "red")] "fill" ∧
    getA (cascade (noOwn [("fill", "blue"), ("stop-color", "red")])) "stop-color" =
      none :=
  ⟨(c2_inheritance_amended.2 [("fill", "blue"), ("stop-color", "red")]
      (by decide) "fill").1 (by decide),
   (c2_inheritance_amended.2 [("fill", "blue"), ("stop-color", "red")]
      (by decide) "stop-color").2 (by decide)⟩

/-! ## C3: the substitution invariants -/

/-- No attribute of the map resolves to the literal string "inherit". -/
def noInherit (m : AttrMap) : Prop := ∀ k, getA m k ≠ some "inherit"

/-- The map's keys are pairwise distinct (true of every Python dict). -/
def WFmap (m : AttrMap) : Prop := (m.map Prod.fst).Nodup

theorem mem_of_getA (m : AttrMap) (k v : String) (h : getA m k = some v) :
    (k, v) ∈ m := by
  induction m with
  | nil => simp [getA] at h
  | cons p rest ih =>
    by_cases hp : p.1 = k
    · rw [getA, if_pos hp] at h
      cases h
      exact hp ▸ (Prod.mk.eta (p := p)) ▸ List.mem_cons_self p rest
    · rw [getA, if_neg hp] at h
      exact List.mem_cons_of_mem p (ih h)

theorem getA_unique (m : AttrMap) (k v : String) (hwf : WFmap m)
    (h : (k, v) ∈ m) : getA m k = some v := by
  induction m with
  | nil => simp at h
  | cons p rest ih =>
    have hwf' : WFmap rest := (List.nodup_cons.mp hwf).2
    rcases List.mem_cons.mp h with h1 | h1
    · rw [← h1]
      simp [getA]
    · by_cases hp : p.1 = k
      · exfalso
        have : k ∈ rest.map Prod.fst := List.mem_map_of_mem Prod.fst h1
        exact (List.nodup_cons.mp hwf).1 (hp ▸ this)
      · rw [getA, if_neg hp]
        exact ih hwf' h1

theorem keys_replaceVal (m : AttrMap) (k v : String) :
    (replaceVal m k v).map Prod.fst = m.map Prod.fst := by
  induction m with
  | nil => rfl
  | cons p rest ih =>
    by_cases hp : p.1 = k
    · simp [replaceVal, hp, ih]
    · simp [replaceVal, hp, ih]

theorem not_mem_keys_of_not_hasKey (m : AttrMap) (k : String)
    (h : hasKey m k = false) : k ∉ m.map Prod.fst := by
  intro hmem
  obtain ⟨q, hq, hq1⟩ := List.mem_map.mp hmem
  have : (k, q.2) ∈ m := by
    rw [← hq1]; exact (Prod.mk.eta (p := q)) ▸ hq
  exact getA_isSome_of_mem m k q.2 this (getA_none_of_not_hasKey m k h)

theorem WFmap_setA (m : AttrMap) (k v : String) (hwf : WFmap m) :
    WFmap (setA m k v) := by
  rw [setA]
  by_cases hk : hasKey m k = true
  · rw [if_pos hk]
    unfold WFmap
    rw [keys_replaceVal]
    exact hwf
  · rw [if_neg hk]
    unfold WFmap
    rw [List.map_append]
    apply List.Nodup.append hwf (by simp)
    intro a ha hb
    simp at hb
    exact not_mem_keys_of_not_hasKey m k (by simpa using hk) (hb ▸ ha)

theorem keys_eraseA_sublist (m : AttrMap) (k : String) :
    List.Sublist ((eraseA m k).map Prod.fst) (m.map Prod.fst) := by
  induction m with
  | nil => simp [eraseA]
  | cons p rest ih =>
    by_cases hp : p.1 = k
    · rw [eraseA, if_pos hp]
      simp only [List.map_cons]
      exact ih.cons p.1
    · rw [eraseA, if_neg hp]
      simp only [List.map_cons]
      exact ih.cons₂ p.1

theorem WFmap_eraseA (m : AttrMap) (k : String) (hwf : WFmap m) :
    WFmap (eraseA m k) :=
  List.Nodup.sublist (keys_eraseA_sublist m k) hwf

theorem WFmap_filter (m : AttrMap) (f : String × String → Bool) (hwf : WFmap m) :
    WFmap (m.filter f) :=
  List.Nodup.sublist (List.Sublist.map Prod.fst (List.filter_sublist m)) hwf

theorem WFmap_foldl_setA (g : String → String) (l : List (String × String))
    (m : AttrMap) (hwf : WFmap m) :
    WFmap (l.foldl (fun acc q => setA acc q.1 (g q.2)) m) := by
  induction l generalizing m with
  | nil => exact hwf
  | cons q rest ih =>
    rw [List.foldl_cons]
    exact ih _ (WFmap_setA _ _ _ hwf)

theorem WFmap_foldl_setA_id (l : List (String × String)) (m : AttrMap)
    (hwf : WFmap m) :
    WFmap (l.foldl (fun acc q => setA acc q.1 q.2) m) := by
  induction l generalizing m with
  | nil => exact hwf
  | cons q rest ih =>
    rw [List.foldl_cons]
    exact ih _ (WFmap_setA _ _ _ hwf)

theorem WFmap_cascadeTiers (ci : CascadeInput)
    (hp : match ci.parentAttrs with
      | some p => WFmap p
      | none => True) :
    WFmap (cascadeTiers ci) := by
  rw [cascadeTiers, foldl_decls_flatten]
  apply WFmap_foldl_setA
  apply WFmap_foldl_setA_id
  cases hpa : ci.parentAttrs with
  | none => exact List.nodup_nil
  | some p =>
    rw [hpa] at hp
    exact WFmap_filter p _ hp

theorem WFmap_substituteCurrentColor (m : AttrMap) (hwf : WFmap m) :
    WFmap (substituteCurrentColor m) := by
  rw [substituteCurrentColor]
  generalize COLOR_ATTRIBUTES = l
  induction l generalizing m with
  | nil => exact hwf
  | cons a rest ih =>
    rw [List.foldl_cons]
    by_cases hg : getA m a = some "currentColor"
    · rw [if_pos hg]
      exact ih _ (WFmap_setA _ _ _ hwf)
    · rw [if_neg hg]
      exact ih _ hwf

theorem cascade_noInherit (ci : CascadeInput)
    (hp : match ci.parentAttrs with
      | some p => noInherit p
      | none => True) :
    noInherit (cascade ci) := by
  intro k
  rw [cascade, substituteInherit]
  set m3 := substituteCurrentColor (cascadeTiers ci) with hm3
  by_cases hmem : k ∈ (m3.filter (fun q => q.2 == "inherit")).map (·.1)
  · rw [getA_inhFold_mem _ _ _ _ hmem]
    cases hpa : ci.parentAttrs with
    | none => simp
    | some p =>
      rw [hpa] at hp
      exact hp k
  · rw [getA_inhFold_not_mem _ _ _ _ hmem]
    intro hk
    apply hmem
    have hentry : (k, "inherit") ∈ m3 := mem_of_getA m3 k "inherit" hk
    simp only [List.mem_map, List.mem_filter]
    exact ⟨(k, "inherit"), ⟨hentry, by simp⟩, rfl⟩

theorem mem_nodesListOf_buildKids (mf : RElem → Bool)
    (matcher : RElem → List (List (String × String)) × List (List (String × String)))
    (pd : String → List (String × String) × List (String × String))
    (sw : Bool) (pa : AttrMap) (cs : List RElem) (n : SNode)
    (hn : n ∈ nodesListOf (buildKids mf matcher pd sw pa cs)) :
    ∃ c ∈ cs, n ∈ nodesOf (build mf matcher pd (some pa) c) := by
  induction cs with
  | nil => simp [buildKids, nodesListOf] at hn
  | cons c rest ih =>
    simp only [buildKids] at hn
    by_cases hmf : mf c = true
    · rw [if_pos hmf] at hn
      cases sw with
      | true =>
        simp only [if_pos rfl, nodesListOf, List.append_nil] at hn
        exact ⟨c, List.mem_cons_self c rest, hn⟩
      | false =>
        simp only [Bool.false_eq_true, ite_false, nodesListOf] at hn
        rcases List.mem_append.mp hn with h1 | h1
        · exact ⟨c, List.mem_cons_self c rest, h1⟩
        · obtain ⟨c', hc', hn'⟩ := ih h1
          exact ⟨c', List.mem_cons_of_mem c hc', hn'⟩
    · rw [if_neg hmf] at hn
      obtain ⟨c', hc', hn'⟩ := ih hn
      exact ⟨c', List.mem_cons_of_mem c hc', hn'⟩

theorem sizeOf_pos_relem (e : RElem) : 0 < sizeOf e := by
  cases e; simp_arith

theorem build_noInherit (mf : RElem → Bool)
    (matcher : RElem → List (List (String × String)) × List (List (String × String)))
    (pd : String → List (String × String) × List (String × String)) :
    ∀ (N : Nat) (e : RElem), sizeOf e ≤ N →
    ∀ parent : Option AttrMap,
      (match parent with
        | some p => noInherit p
        | none => True) →
      ∀ n ∈ nodesOf (build mf matcher pd parent e), noInherit n.attrsOf := by
  intro N
  induction N with
  | zero =>
    intro e he
    have := sizeOf_pos_relem e
    omega
  | succ N ih =>
    rintro ⟨t, a, cs⟩ he parent hp n hn
    simp only [build, nodesOf] at hn
    rcases List.mem_cons.mp hn with h1 | h1
    · subst h1
      simp only [SNode.attrsOf]
      exact cascade_noInherit _ hp
    · obtain ⟨c, hc, hn2⟩ := mem_nodesListOf_buildKids mf matcher pd _ _ cs n h1
      have hsz : sizeOf c ≤ N := by
        have h1 : sizeOf c < sizeOf cs := List.sizeOf_lt_of_mem hc
        have h2 : sizeOf cs < sizeOf (RElem.node t a cs) := by simp_arith
        omega
      have hattrs : noInherit (nodeAttrs matcher pd parent (RElem.node t a cs)) :=
        cascade_noInherit _ hp
      exact ih c hsz (some (nodeAttrs matcher pd parent (RElem.node t a cs)))
        hattrs n hn2

/-- A single `svg` element carrying
`color="currentColor" fill="currentColor"`. -/
def c3tree : RElem :=
  RElem.node "svg" [("color", "currentColor"), ("fill", "currentColor")] []

/-- C3 counterexample: building `c3tree` (no stylesheet, no parent)
leaves `fill` resolved to the literal string "currentColor": the
substitution replaces `fill` by the node's `color` value, which is
itself "currentColor", so the claimed invariant that none of the five
color attributes resolves to "currentColor" is false. -/
theorem c3_counterexample :
    getA (build mfAll matcher0 pd0 none c3tree).attrsOf "fill" =
      some "currentColor" ∧
    "fill" ∈ COLOR_ATTRIBUTES := by
  constructor
  · simp [build, buildKids, mfAll, matcher0, pd0, c3tree, nodeAttrs,
      nodeCascadeInput, cascade, cascadeTiers, inheritedFrom, substituteCurrentColor,
      substituteInherit, inheritStep, setA, hasKey, replaceVal, getA, eraseA,
      COLOR_ATTRIBUTES, RElem.attribOf, SNode.attrsOf, pyStrip, pyStripList]
  · decide

/-- C3 amended: after construction no resolved attribute value is
literally "inherit" (for every node of every tree built from a root
with no parent), exactly as claimed; and none of the five color
attributes resolves to literally "currentColor" provided the node's own
resolved "color" is not literally "currentColor" and the parent map (if
any) has distinct keys and is itself free of "currentColor" among the
color attributes — without that proviso the counterexample applies. -/
theorem c3_substitutions_amended :
    (∀ (mf : RElem → Bool)
      (matcher : RElem → List (List (String × String)) × List (List (String × String)))
      (pd : String → List (String × String) × List (String × String))
      (e : RElem),
      ∀ n ∈ nodesOf (build mf matcher pd none e), noInherit n.attrsOf) ∧
    (∀ ci : CascadeInput,
      (match ci.parentAttrs with
        | none => True
        | some p => WFmap p ∧ ∀ a ∈ COLOR_ATTRIBUTES, getA p a ≠ some "currentColor") →
      getA (cascade ci) "color" ≠ some "currentColor" →
      ∀ a ∈ COLOR_ATTRIBUTES, getA (cascade ci) a ≠ some "currentColor") := by
  constructor
  · intro mf matcher pd e n hn
    exact build_noInherit mf matcher pd (sizeOf e) e (Nat.le_refl _) none trivial n hn
  · intro ci hp h2 a ha hcc
    have hwfmid : WFmap (cascadeTiers ci) := by
      apply WFmap_cascadeTiers
      cases hpa : ci.parentAttrs with
      | none => trivial
      | some p =>
        rw [hpa] at hp
        exact hp.1
    have hwfm3 : WFmap (substituteCurrentColor (cascadeTiers ci)) :=
      WFmap_substituteCurrentColor _ hwfmid
    rw [cascade, substituteInherit] at hcc h2
    set m3 := substituteCurrentColor (cascadeTiers ci) with hm3def
    set keys := (m3.filter (fun q => q.2 == "inherit")).map (·.1) with hkeysdef
    by_cases hmem : a ∈ keys
    · rw [getA_inhFold_mem _ _ _ _ hmem] at hcc
      cases hpa : ci.parentAttrs with
      | none => rw [hpa] at hcc; simp at hcc
      | some p =>
        rw [hpa] at hcc hp
        exact hp.2 a ha hcc
    · rw [getA_inhFold_not_mem _ _ _ _ hmem] at hcc
      rw [hm3def, getA_substituteCurrentColor] at hcc
      by_cases hguard : a ∈ COLOR_ATTRIBUTES ∧
          getA (cascadeTiers ci) a = some "currentColor"
      · rw [if_pos hguard] at hcc
        have hmidcolor : getA (cascadeTiers ci) "color" = some "currentColor" := by
          cases hg : getA (cascadeTiers ci) "color" with
          | none => rw [hg] at hcc; simp at hcc
          | some w =>
            rw [hg] at hcc
            simp only [Option.getD_some, Option.some.injEq] at hcc
            rw [hcc]
        have hm3color : getA m3 "color" = some "currentColor" := by
          rw [hm3def, getA_substituteCurrentColor, if_neg, hmidcolor]
          rintro ⟨hcl, _⟩
          revert hcl
          decide
        have hcolmem : "color" ∉ keys := by
          intro hmemc
          rw [hkeysdef] at hmemc
          simp only [List.mem_map, List.mem_filter] at hmemc
          obtain ⟨q, ⟨hq1, hq2⟩, hq3⟩ := hmemc
          have hqm : ("color", q.2) ∈ m3 := by
            rw [← hq3]
            exact (Prod.mk.eta (p := q)) ▸ hq1
          have := getA_unique m3 "color" q.2 hwfm3 hqm
          rw [hm3color] at this
          simp only [Option.some.injEq] at this
          rw [← this] at hq2
          simp at hq2
        rw [getA_inhFold_not_mem _ _ _ _ hcolmem, hm3color] at h2
        exact h2 rfl
      · rw [if_neg hguard] at hcc
        exact hguard ⟨ha, hcc⟩

/-- C3 amended, witness: the `currentColor` conjunct applied at the
concrete input with raw attributes `fill="currentColor"` and no
`color`: the resolved `fill` is "black", not "currentColor". -/
theorem c3_substitutions_amended_witness :
    getA (cascade ⟨none, [("fill", "currentColor")], [], [], [], []⟩) "fill" ≠
      some "currentColor" :=
  c3_substitutions_amended.2 ⟨none, [("fill", "currentColor")], [], [], [], []⟩
    trivial (by decide) "fill" (by decide)

/-! ## The tree loader (`Tree.__new__` / `Tree.__init__`, parser.py lines 326-417)

The loader's collaborators are parameters: `fetch` models
`fetch_url(parse_url(self.url), 'image/svg+xml')`, `parseDoc` models
`ElementTree.fromstring` composed with the gzip decompression step, and
`freshStyle` models `css.parse_stylesheets` (yielding the identity of a
freshly computed matcher pair; a per-document pair is identified by a
number so that sharing is expressible). -/

/-- A node of the parent chain as the loader sees it: its document URL
(`self.url`), its resolved attribute dict, the parsed document object it
carries (`self.xml_tree`), the identity of its style matcher pair and
its parent (`self.parent`). -/
inductive PNode where
  | root (url : Option String) (attrs : AttrMap) (doc : RElem) (styleId : Nat)
  | child (url : Option String) (attrs : AttrMap) (doc : RElem) (styleId : Nat)
      (parent : PNode)

/-- The node's `url` attribute. -/
def PNode.urlOf : PNode → Option String
  | .root u _ _ _ => u
  | .child u _ _ _ _ => u

/-- The node's resolved attribute dict. -/
def PNode.pattrsOf : PNode → AttrMap
  | .root _ a _ _ => a
  | .child _ a _ _ _ => a

/-- The node's `xml_tree`. -/
def PNode.docOf : PNode → RElem
  | .root _ _ d _ => d
  | .child _ _ d _ _ => d

/-- The identity of the node's style matcher pair. -/
def PNode.styleIdOf : PNode → Nat
  | .root _ _ _ s => s
  | .child _ _ _ s _ => s

/-- The topmost ancestor of the chain
(`while root_parent.parent: root_parent = root_parent.parent`). -/
def rootAncestor : PNode → PNode
  | .root u a d s => .root u a d s
  | .child _ _ _ _ p => rootAncestor p

/-- An entry of the reference cache: the cached tree's effective root
element (`cached_tree.element`), the identity of its style matcher pair
(`cached_tree.style`), its parsed document (`cached_tree.xml_tree`) and
its tag (`cached_tree.tag`). -/
structure CachedTree where
  element : RElem
  styleId : Nat
  xmlTree : RElem
  tag : String

/-- The reference cache: keys are `(url-without-fragment, element-id)`
pairs, where the stored id may be `None` (`self.get('id')`). -/
abbrev TreeCache := List ((String × Option String) × CachedTree)

/-- Cache lookup. -/
def lookupCache (c : TreeCache) (k : String × Option String) : Option CachedTree :=
  (c.find? (fun q => q.1 == k)).map (·.2)

/-- Split a URL at its first '#' into the part without the fragment and
the fragment; models `parse_url(url)` followed by
`urlunparse(parsed_url[:-1] + ('',))` and `.fragment` for the URL shapes
exercised here (`any(parsed_url[:-1])` is the without-fragment part
being non-empty). -/
def splitFragment (u : String) : String × String :=
  let before := u.data.takeWhile (fun c => c ≠ '#')
  (⟨before⟩, ⟨u.data.drop (before.length + 1)⟩)

/-- Modelled from the spec: `parse_url(url, parent_url)` of url.py (a
module not among the sources under verification) resolves the URL
argument against the parent's URL when it is relative; for the URL
shapes exercised here a fragment-only URL resolves against the parent
URL and any other URL is taken as already absolute. -/
def resolveAgainst (u : String) (parentUrl : Option String) : String :=
  if u.startsWith "#" then (parentUrl.getD "") ++ u else u

/-- The cache check of `Tree.__new__` (parser.py lines 328-351): only
performed when a non-empty cache and a non-empty `url` keyword are
supplied; the lookup key is the URL without its fragment (or the parent
URL for a fragment-only URL) paired with the fragment string. -/
def cacheGate (cache : Option TreeCache) (urlArg : Option String)
    (parent : Option PNode) : Option CachedTree :=
  match cache, urlArg with
  | some tc, some u =>
    if tc.isEmpty = false ∧ u ≠ "" then
      let base := (splitFragment u).1
      let frag := (splitFragment u).2
      let url : Option String :=
        if base ≠ "" then some base
        else
          match parent with
          | some p => p.urlOf
          | none => none
      match url with
      | some u2 => if u2 ≠ "" then lookupCache tc (u2, some frag) else none
      | none => none
    else none
  | _, _ => none

/-- The input resolution of `Tree.__init__` (parser.py lines 355-385):
returns `(self.url, element_id, bytestring)` or `none` for the
`TypeError` when no input is given.  With a `bytestring` the url
keyword is stored as-is and no element id is extracted; with a
`file_obj` the url comes from the file's name (`<stdin>` maps to none)
and no element id is extracted; only a pure URL load splits off and
keeps the fragment. -/
def urlIdBytes (bytestring : Option String)
    (file_obj : Option (String × Option String)) (urlArg : Option String)
    (parent : Option PNode) :
    Option (Option String × Option String × Option String) :=
  match bytestring with
  | some b => some (urlArg, none, some b)
  | none =>
    match file_obj with
    | some fo =>
      some (if fo.2 = some "<stdin>" then none else fo.2, none, some fo.1)
    | none =>
      match urlArg with
      | some u =>
        let r := resolveAgainst u
          (match parent with | some p => p.urlOf | none => none)
        let base := (splitFragment r).1
        let frag := (splitFragment r).2
        some (if base = "" then none else some base,
          if frag = "" then none else some frag, none)
      | none => none

/-- The document resolution of `Tree.__init__` (parser.py lines
386-399): when a parent exists and `self.url == parent.url`, the parsed
document of the topmost ancestor of the parent chain is reused;
otherwise the bytes (fetched first when absent or empty, since
`if not bytestring:` is true for `b''`) are parsed. -/
def resolveDoc (fetch : Option String → String) (parseDoc : String → RElem)
    (parent : Option PNode) (selfUrl : Option String)
    (bytes : Option String) : RElem :=
  match parent with
  | some p =>
    if selfUrl = p.urlOf then (rootAncestor p).docOf
    else
      parseDoc (match bytes with
        | some b => if b = "" then fetch selfUrl else b
        | none => fetch selfUrl)
  | none =>
    parseDoc (match bytes with
      | some b => if b = "" then fetch selfUrl else b
      | none => fetch selfUrl)

mutual
/-- The fragment search of `Tree.__init__` (parser.py lines 403-411):
the first element of the document subtree, in document order, whose
`id` attribute equals the element id. -/
def findById : RElem → String → Option RElem
  | RElem.node t a cs, eid =>
    if getA a "id" = some eid then some (RElem.node t a cs)
    else findByIdList cs eid
/-- Fragment search over a list of subtrees. -/
def findByIdList : List RElem → String → Option RElem
  | [], _ => none
  | c :: rest, eid =>
    match findById c eid with
    | some e => some e
    | none => findByIdList rest eid
end

/-- The outcome of one `Tree(...)` call: the `TypeError` for a missing
input, the `TypeError` for an unresolved fragment id, a node built from
a cache hit in `Tree.__new__` (carrying the overridden tag, the shared
parsed document and the shared matcher-pair identity), or a normally
built tree (carrying the effective root and the parsed document). -/
inductive LoadOutcome where
  | errNoInput
  | errUnresolved (eid : String)
  | cacheHit (node : SNode) (tag : String) (xmlTree : RElem) (styleId : Nat)
      (root : Bool)
  | built (node : SNode) (effRoot : RElem) (doc : RElem) (styleId : Nat)
      (root : Bool)

/-- The cache insertion of `Tree.__init__` (parser.py lines 416-417):
performed when a cache was supplied and `self.url` is truthy, keyed by
`(self.url, self.get('id'))`, storing the tree. -/
def mkCacheEntry (cache : Option TreeCache) (selfUrl : Option String)
    (node : SNode) (effRoot : RElem) (styleId : Nat) :
    Option ((String × Option String) × CachedTree) :=
  match cache, selfUrl with
  | some _, some u =>
    if u ≠ "" then
      some ((u, getA node.attrsOf "id"), ⟨effRoot, styleId, effRoot, node.tagOf⟩)
    else none
  | _, _ => none

/-- One `Tree(...)` call: the `Tree.__new__` cache check first — on a
hit a fresh `Node` is built over the cached element under the new
parent, its tag overridden by the cached tag, marked as a root, and
`Tree.__init__` is skipped entirely (no fetch, parse, stylesheet
computation, fragment search or cache insertion) — then the
`Tree.__init__` algorithm: input resolution, same-document reuse or
fetch-and-parse, style pair (the parent's, else freshly computed),
fragment search, node construction and cache insertion.  Returns the
outcome and the cache entry to insert (if any). -/
def treeLoad (mf : RElem → Bool)
    (matcher : RElem → List (List (String × String)) × List (List (String × String)))
    (pd : String → List (String × String) × List (String × String))
    (fetch : Option String → String) (parseDoc : String → RElem)
    (freshStyle : Option String → Nat) (cache : Option TreeCache)
    (bytestring : Option String) (file_obj : Option (String × Option String))
    (urlArg : Option String) (parent : Option PNode) :
    LoadOutcome × Option ((String × Option String) × CachedTree) :=
  match cacheGate cache urlArg parent with
  | some ct =>
    let pattrs : Option AttrMap :=
      match parent with
      | some p => some p.pattrsOf
      | none => none
    let n := build mf matcher pd pattrs ct.element
    (LoadOutcome.cacheHit (SNode.node ct.tag n.attrsOf n.childrenOf) ct.tag
      ct.xmlTree ct.styleId true, none)
  | none =>
    match urlIdBytes bytestring file_obj urlArg parent with
    | none => (LoadOutcome.errNoInput, none)
    | some (selfUrl, eid, bytes) =>
      let doc := resolveDoc fetch parseDoc parent selfUrl bytes
      let styleId :=
        match parent with
        | some p => p.styleIdOf
        | none => freshStyle selfUrl
      let pattrs : Option AttrMap :=
        match parent with
        | some p => some p.pattrsOf
        | none => none
      match eid with
      | some e =>
        match findById doc e with
        | some el =>
          let node := build mf matcher pd pattrs el
          (LoadOutcome.built node el doc styleId true,
            mkCacheEntry cache selfUrl node el styleId)
        | none => (LoadOutcome.errUnresolved e, none)
      | none =>
        let node := build mf matcher pd pattrs doc
        (LoadOutcome.built node doc doc styleId true,
          mkCacheEntry cache selfUrl node doc styleId)

/-! ## C8: the same-document short-circuit -/

/-- The URLs of the whole parent chain, the way the claim reads them
("the URL of any ancestor Tree, found by walking the parent chain up to
the top"). -/
def specAncestorUrls : PNode → List (Option String)
  | .root u _ _ _ => [u]
  | .child u _ _ _ p => u :: specAncestorUrls p

/-- Document of the top-level tree of the example chain. -/
def docA : RElem := RElem.node "svgA" [] []

/-- Document of the nested tree of the example chain. -/
def docB : RElem := RElem.node "svgB" [] []

/-- A fetcher returning empty bytes. -/
def fetch0 : Option String → String := fun _ => ""

/-- A parser returning a recognizable marker document. -/
def parseDoc0 : String → RElem := fun _ => RElem.node "fetched" [] []

/-- Example chain: a top-level tree at URL "A" with document `docA`, a
node of that document, a nested tree at URL "B" with document `docB`,
and a node of that nested document (the load's parent). -/
def pchainEx : PNode :=
  PNode.child (some "B") [] docB 1
    (PNode.child (some "B") [] docB 1
      (PNode.child (some "A") [] docA 0
        (PNode.root (some "A") [] docA 0)))

/-- C8 counterexample: loading URL "A" under `pchainEx` — whose ancestor
chain carries URL "A" (the top-level tree) — fetches and re-parses
instead of reusing that ancestor's document, because the code compares
the resolved URL only against the immediate parent's URL; and loading
URL "B" (the immediate parent's URL) reuses the document of the topmost
ancestor, `docA`, not the document `docB` of the matching nested tree. -/
theorem c8_counterexample :
    resolveDoc fetch0 parseDoc0 (some pchainEx) (some "A") none =
      RElem.node "fetched" [] [] ∧
    (some "A") ∈ specAncestorUrls pchainEx ∧
    RElem.node "fetched" [] [] ≠ docA ∧
    resolveDoc fetch0 parseDoc0 (some pchainEx) (some "B") none = docA ∧
    docA ≠ docB := by
  refine ⟨?_, ?_, ?_, ?_, ?_⟩
  · simp [resolveDoc, pchainEx, PNode.urlOf, fetch0, parseDoc0]
  · simp [specAncestorUrls, pchainEx]
  · intro h; simp [docA] at h
  · simp [resolveDoc, pchainEx, PNode.urlOf, PNode.docOf, rootAncestor]
  · intro h; simp [docA, docB] at h

/-- C8 amended: the loader reuses an already-parsed document exactly
when the load's resolved URL equals the immediate parent node's URL,
and the document it then reuses is the one of the topmost ancestor of
the parent chain (the root the while-loop walks to), not necessarily
that of the tree whose URL matched; when the URLs differ the bytes are
fetched and parsed even if some farther ancestor's URL matches. -/
theorem c8_same_document_amended :
    ∀ (fetch : Option String → String) (parseDoc : String → RElem) (p : PNode)
      (selfUrl : Option String) (bytes : Option String),
      (selfUrl = p.urlOf →
        resolveDoc fetch parseDoc (some p) selfUrl bytes = (rootAncestor p).docOf) ∧
      (selfUrl ≠ p.urlOf →
        resolveDoc fetch parseDoc (some p) selfUrl bytes =
          parseDoc (match bytes with
            | some b => if b = "" then fetch selfUrl else b
            | none => fetch selfUrl)) := by
  intro fetch parseDoc p selfUrl bytes
  constructor
  · intro h
    simp only [resolveDoc]
    rw [if_pos h]
  · intro h
    simp only [resolveDoc]
    rw [if_neg h]

/-- C8 amended, witness: both branches applied at a concrete one-node
chain with URL "X": a load of "X" reuses the chain's document, a load
of "Y" parses the fetched bytes. -/
theorem c8_same_document_amended_witness :
    resolveDoc fetch0 parseDoc0 (some (PNode.root (some "X") [] docA 5))
        (some "X") none = (rootAncestor (PNode.root (some "X") [] docA 5)).docOf ∧
    resolveDoc fetch0 parseDoc0 (some (PNode.root (some "X") [] docA 5))
        (some "Y") none = parseDoc0 (fetch0 (some "Y")) :=
  ⟨(c8_same_document_amended fetch0 parseDoc0 (PNode.root (some "X") [] docA 5)
      (some "X") none).1 rfl,
   (c8_same_document_amended fetch0 parseDoc0 (PNode.root (some "X") [] docA 5)
      (some "Y") none).2 (by simp [PNode.urlOf])⟩

/-! ## C9: the cache hit -/

/-- Cached tree of the two-load example: a `use` element with one raw
attribute, a matcher pair identified as 7, a distinct parsed document,
tag `svg`. -/
def ct9 : CachedTree :=
  ⟨RElem.node "use" [("w", "1")] [], 7, RElem.node "docroot" [] [], "svg"⟩

/-- A cache already containing the key ("doc.svg", "sym"). -/
def cache9 : TreeCache := [(("doc.svg", some "sym"), ct9)]

/-- C9: when the `(URL-without-fragment, fragment)` key of a load is
present in a supplied cache, the load returns from `Tree.__new__` with
a node built over the cached tree's element under the current parent
(cascade recomputed against that parent), carrying the cached tree's
tag, parsed document and matcher pair, marked as a tree root, with no
cache insertion; the outcome does not depend on the fetch, parse or
stylesheet collaborators at all (none of them runs — `Tree.__init__`
is skipped); and two loads of the same URL+fragment through the same
cache under different parents share the parsed document and the matcher
pair while resolving their attributes independently. -/
theorem c9_cache_hit :
    (∀ (mf : RElem → Bool)
      (matcher : RElem → List (List (String × String)) × List (List (String × String)))
      (pd : String → List (String × String) × List (String × String))
      (fetch : Option String → String) (parseDoc : String → RElem)
      (freshStyle : Option String → Nat) (cache : Option TreeCache)
      (bytestring : Option String) (file_obj : Option (String × Option String))
      (urlArg : Option String) (parent : Option PNode) (ct : CachedTree),
      cacheGate cache urlArg parent = some ct →
      treeLoad mf matcher pd fetch parseDoc freshStyle cache bytestring file_obj
          urlArg parent =
        (LoadOutcome.cacheHit
          (SNode.node ct.tag
            (build mf matcher pd
              (match parent with | some p => some p.pattrsOf | none => none)
              ct.element).attrsOf
            (build mf matcher pd
              (match parent with | some p => some p.pattrsOf | none => none)
              ct.element).childrenOf)
          ct.tag ct.xmlTree ct.styleId true, none)) ∧
    (∀ (mf : RElem → Bool)
      (matcher : RElem → List (List (String × String)) × List (List (String × String)))
      (pd : String → List (String × String) × List (String × String))
      (fetch1 fetch2 : Option String → String) (parseDoc1 parseDoc2 : String → RElem)
      (freshStyle1 freshStyle2 : Option String → Nat) (cache : Option TreeCache)
      (bytestring : Option String) (file_obj : Option (String × Option String))
      (urlArg : Option String) (parent : Option PNode) (ct : CachedTree),
      cacheGate cache urlArg parent = some ct →
      treeLoad mf matcher pd fetch1 parseDoc1 freshStyle1 cache bytestring file_obj
          urlArg parent =
        treeLoad mf matcher pd fetch2 parseDoc2 freshStyle2 cache bytestring file_obj
          urlArg parent) ∧
    ((treeLoad mfAll matcher0 pd0 fetch0 parseDoc0 (fun _ => 9) (some cache9) none
        none (some "doc.svg#sym")
        (some (PNode.root none [("color", "red")] docA 3))).1 =
      LoadOutcome.cacheHit (SNode.node "svg" [("color", "red"), ("w", "1")] [])
        "svg" (RElem.node "docroot" [] []) 7 true ∧
    (treeLoad mfAll matcher0 pd0 fetch0 parseDoc0 (fun _ => 9) (some cache9) none
        none (some "doc.svg#sym")
        (some (PNode.root none [("color", "blue")] docA 3))).1 =
      LoadOutcome.cacheHit (SNode.node "svg" [("color", "blue"), ("w", "1")] [])
        "svg" (RElem.node "docroot" [] []) 7 true ∧
    ([("color", "red"), ("w", "1")] : AttrMap) ≠ [("color", "blue"), ("w", "1")]) := by
  refine ⟨?_, ?_, ?_, ?_, by decide⟩
  · intro mf matcher pd fetch parseDoc freshStyle cache bytestring file_obj urlArg
      parent ct hgate
    simp [treeLoad, hgate]
  · intro mf matcher pd fetch1 fetch2 parseDoc1 parseDoc2 freshStyle1 freshStyle2
      cache bytestring file_obj urlArg parent ct hgate
    simp [treeLoad, hgate]
  · simp [treeLoad, cacheGate, cache9, ct9, lookupCache, splitFragment, build,
      buildKids, mfAll, matcher0, pd0, nodeAttrs, nodeCascadeInput, cascade,
      cascadeTiers, inheritedFrom, substituteCurrentColor, substituteInherit,
      inheritStep, setA, hasKey, replaceVal, getA, eraseA, COLOR_ATTRIBUTES,
      NOT_INHERITED_ATTRIBUTES, RElem.attribOf, SNode.attrsOf, SNode.childrenOf,
      PNode.pattrsOf, PNode.urlOf, List.takeWhile, pyStrip, pyStripList]
  · simp [treeLoad, cacheGate, cache9, ct9, lookupCache, splitFragment, build,
      buildKids, mfAll, matcher0, pd0, nodeAttrs, nodeCascadeInput, cascade,
      cascadeTiers, inheritedFrom, substituteCurrentColor, substituteInherit,
      inheritStep, setA, hasKey, replaceVal, getA, eraseA, COLOR_ATTRIBUTES,
      NOT_INHERITED_ATTRIBUTES, RElem.attribOf, SNode.attrsOf, SNode.childrenOf,
      PNode.pattrsOf, PNode.urlOf, List.takeWhile, pyStrip, pyStripList]

/-- C9 witness: the hit characterization applied at the concrete cache
`cache9`, URL "doc.svg#sym" and a parent with `color="red"`. -/
theorem c9_cache_hit_witness :
    treeLoad mfAll matcher0 pd0 fetch0 parseDoc0 (fun _ => 9) (some cache9) none
        none (some "doc.svg#sym") (some (PNode.root none [("color", "red")] docA 3)) =
      (LoadOutcome.cacheHit
        (SNode.node ct9.tag
          (build mfAll matcher0 pd0 (some [("color", "red")]) ct9.element).attrsOf
          (build mfAll matcher0 pd0 (some [("color", "red")]) ct9.element).childrenOf)
        ct9.tag ct9.xmlTree ct9.styleId true, none) :=
  c9_cache_hit.1 mfAll matcher0 pd0 fetch0 parseDoc0 (fun _ => 9) (some cache9)
    none none (some "doc.svg#sym") (some (PNode.root none [("color", "red")] docA 3))
    ct9 (by simp [cacheGate, cache9, lookupCache, splitFragment, List.takeWhile])

/-! ## C10: bytestring and file loads and the URL fragment -/

/-- Cached tree of the C10 counterexample. -/
def ct10 : CachedTree :=
  ⟨RElem.node "use" [] [], 7, RElem.node "cached" [] [], "svg"⟩

/-- A cache already containing the key ("x", "y"). -/
def cache10 : TreeCache := [(("x", some "y"), ct10)]

/-- C10 counterexample: a load whose input is supplied as raw bytes,
with `url="x#y"` and a supplied cache containing the key ("x", "y"),
does consult the fragment: `Tree.__new__` hits the cache and the result
is the cached subtree re-wrapped (here the cached fragment element),
not the parsed document root of the supplied bytes — so the fragment of
the url argument is not ignored unconditionally on bytestring loads. -/
theorem c10_counterexample :
    (treeLoad mfAll matcher0 pd0 fetch0 parseDoc0 (fun _ => 0) (some cache10)
        (some "<svg/>") none (some "x#y") none).1 =
      LoadOutcome.cacheHit (SNode.node "svg" [] []) "svg"
        (RElem.node "cached" [] []) 7 true := by
  simp [treeLoad, cacheGate, cache10, ct10, lookupCache, splitFragment, build,
    buildKids, mfAll, matcher0, pd0, nodeAttrs, nodeCascadeInput, cascade,
    cascadeTiers, inheritedFrom, substituteCurrentColor, substituteInherit,
    inheritStep, setA, hasKey, replaceVal, getA, eraseA, COLOR_ATTRIBUTES,
    NOT_INHERITED_ATTRIBUTES, RElem.attribOf, SNode.attrsOf, SNode.childrenOf,
    List.takeWhile, pyStrip, pyStripList]

/-- C10 amended: for every load supplied as raw bytes or as a readable
byte source that does not hit the reference cache (in particular
whenever no cache is supplied), no element id is extracted from the url
argument, no fragment search is performed, the parsed document root
becomes the effective root unconditionally, and neither the no-input
error nor the fragment-not-found error is raised; the fragment is
extracted only on pure URL loads.  (A supplied cache containing the
URL's key short-circuits in `Tree.__new__` before `Tree.__init__` runs,
as the counterexample shows.) -/
theorem c10_bytes_fragment_amended :
    (∀ (mf : RElem → Bool)
      (matcher : RElem → List (List (String × String)) × List (List (String × String)))
      (pd : String → List (String × String) × List (String × String))
      (fetch : Option String → String) (parseDoc : String → RElem)
      (freshStyle : Option String → Nat) (cache : Option TreeCache)
      (b : String) (file_obj : Option (String × Option String))
      (urlArg : Option String) (parent : Option PNode),
      cacheGate cache urlArg parent = none →
      ∃ n d s, (treeLoad mf matcher pd fetch parseDoc freshStyle cache (some b)
        file_obj urlArg parent).1 = LoadOutcome.built n d d s true) ∧
    (∀ (mf : RElem → Bool)
      (matcher : RElem → List (List (String × String)) × List (List (String × String)))
      (pd : String → List (String × String) × List (String × String))
      (fetch : Option String → String) (parseDoc : String → RElem)
      (freshStyle : Option String → Nat) (cache : Option TreeCache)
      (content : String) (name : Option String)
      (urlArg : Option String) (parent : Option PNode),
      cacheGate cache urlArg parent = none →
      ∃ n d s, (treeLoad mf matcher pd fetch parseDoc freshStyle cache none
        (some (content, name)) urlArg parent).1 = LoadOutcome.built n d d s true) := by
  constructor
  · intro mf matcher pd fetch parseDoc freshStyle cache b file_obj urlArg parent hgate
    cases parent with
    | none =>
      refine ⟨build mf matcher pd none
          (resolveDoc fetch parseDoc none urlArg (some b)),
        resolveDoc fetch parseDoc none urlArg (some b), freshStyle urlArg, ?_⟩
      simp only [treeLoad, hgate, urlIdBytes]
    | some p =>
      refine ⟨build mf matcher pd (some p.pattrsOf)
          (resolveDoc fetch parseDoc (some p) urlArg (some b)),
        resolveDoc fetch parseDoc (some p) urlArg (some b), p.styleIdOf, ?_⟩
      simp only [treeLoad, hgate, urlIdBytes]
  · intro mf matcher pd fetch parseDoc freshStyle cache content name urlArg parent hgate
    cases parent with
    | none =>
      refine ⟨build mf matcher pd none
          (resolveDoc fetch parseDoc none
            (if name = some "<stdin>" then none else name) (some content)),
        resolveDoc fetch parseDoc none
          (if name = some "<stdin>" then none else name) (some content),
        freshStyle (if name = some "<stdin>" then none else name), ?_⟩
      simp only [treeLoad, hgate, urlIdBytes]
    | some p =>
      refine ⟨build mf matcher pd (some p.pattrsOf)
          (resolveDoc fetch parseDoc (some p)
            (if name = some "<stdin>" then none else name) (some content)),
        resolveDoc fetch parseDoc (some p)
          (if name = some "<stdin>" then none else name) (some content),
        p.styleIdOf, ?_⟩
      simp only [treeLoad, hgate, urlIdBytes]

/-- C10 amended, witness: the bytestring conjunct applied with no cache
at all and the url argument "x#y": the load builds from the parsed
document root even though the url argument carries a fragment. -/
theorem c10_bytes_fragment_amended_witness :
    ∃ n d s, (treeLoad mfAll matcher0 pd0 fetch0 parseDoc0 (fun _ => 0) none
      (some "<svg/>") none (some "x#y") none).1 = LoadOutcome.built n d d s true :=
  c10_bytes_fragment_amended.1 mfAll matcher0 pd0 fetch0 parseDoc0 (fun _ => 0)
    none "<svg/>" none (some "x#y") none rfl
